import Mathlib

/-!
# Verification of the news-aggregation pipeline

A shallow embedding of the planner / executor / pipeline-step logic of the
news-scraper repository (files `agent.py` and `mobile_agent.py`), together with
theorems settling the spec's claims about it.

External collaborators (the RSS parsing library, the HTTP client, the HTML
extractor, the readability library, the random number generator) are modelled
as function parameters; everything the repository itself computes is embedded
as executable Lean definitions.
-/

namespace NewsScraper

/-! ## Python string primitives

`strContains hay needle` models Python's `needle in hay` substring test.
-/

/-- Membership of `needle` as a contiguous infix of a character list,
modelling Python's `in` operator on strings. -/
def infixOfCL (needle : List Char) : List Char → Bool
  | [] => needle.isEmpty
  | c :: rest => needle.isPrefixOf (c :: rest) || infixOfCL needle rest

/-- Python `needle in hay` for strings. -/
def strContains (hay needle : String) : Bool :=
  infixOfCL needle.toList hay.toList

/-- Python `s.lower()`, character by character (ASCII case folding). -/
def pyLower (s : String) : String :=
  String.mk (s.toList.map Char.toLower)

/-! ## Planner (`plan_task`, identical in `agent.py` and `mobile_agent.py`) -/

/-- Keyword set triggering the canonical six-step plan. -/
def news_keywords : List String := ["news", "articles", "headlines"]

/-- Keyword set triggering the tech-filter step. -/
def tech_keywords : List String := ["tech", "technology", "ai"]

/-- Models `any(word in user_query.lower() for word in kws)`. -/
def hasAnyKeyword (user_query : String) (kws : List String) : Bool :=
  kws.any (fun w => strContains (pyLower user_query) w)

/-- The canonical six-step sequence emitted for news queries. -/
def canonical_steps : List String :=
  ["fetch_news_feeds", "extract_article_content", "analyze_content_quality",
   "summarize_articles", "rank_by_relevance", "generate_summary_report"]

/-- The three-step fallback plan. -/
def fallback_steps : List String :=
  ["fetch_news_feeds", "summarize_articles", "generate_summary_report"]

/-- Embeds `NewsAgent.plan_task` / `MobileNewsAgent.plan_task`: keyword planning. -/
def plan_task (user_query : String) : List String :=
  let plan0 := if hasAnyKeyword user_query news_keywords then canonical_steps else []
  let plan1 :=
    if hasAnyKeyword user_query tech_keywords then plan0 ++ ["filter_tech_content"]
    else plan0
  if plan1.isEmpty then fallback_steps else plan1

/-! ## Article store and feed fetching -/

/-- One article record of the shared store.  `quality_score` and `ai_summary`
are absent (`none`) until the corresponding step computes them; readability
values produced by the external scoring library are modelled as integers. -/
structure Article where
  title : String
  link : String
  published : String
  summary : String
  source : String
  content : String
  word_count : Nat
  readability_score : Int
  relevance_score : Int
  quality_score : Option Int
  ai_summary : Option String
deriving Repr, DecidableEq

/-- A raw feed entry as returned by the feed-parsing collaborator; each field
is `none` when the entry lacks it (Python's `entry.get(key, default)`). -/
structure FeedEntry where
  title : Option String
  link : Option String
  published : Option String
  summary : Option String
deriving Repr, DecidableEq

/-- The result record `fetch_news_feeds` returns to the executor. -/
structure FetchResult where
  total_articles : Nat
  successful_sources : Nat
  failed_sources : Nat
deriving Repr, DecidableEq

/-- The article dictionary built for one feed entry (`agent.py` lines
124-134): defaults applied, derived fields zeroed, `quality_score` absent. -/
def article_of_entry (src : String) (e : FeedEntry) : Article :=
  { title := e.title.getD "No title"
    link := e.link.getD ""
    published := e.published.getD ""
    summary := e.summary.getD ""
    source := src
    content := ""
    word_count := 0
    readability_score := 0
    relevance_score := 0
    quality_score := none
    ai_summary := none }

/-- The per-source loop of `NewsAgent.fetch_news_feeds`: a parse failure for
one source is caught and skipped, a parsed source contributes its first five
entries and one success tick.  `parse` is the feed-parsing collaborator. -/
def fetchLoop (parse : String → Except String (List FeedEntry)) :
    List String → List Article × Nat
  | [] => ([], 0)
  | src :: rest =>
    let here : List Article × Nat :=
      match parse src with
      | .ok entries => ((entries.take 5).map (article_of_entry src), 1)
      | .error _ => ([], 0)
    let acc := fetchLoop parse rest
    (here.1 ++ acc.1, here.2 + acc.2)

/-- Embeds `NewsAgent.fetch_news_feeds` (lines 111-149): the new article store and
the result record. -/
def fetch_news_feeds (sources : List String)
    (parse : String → Except String (List FeedEntry)) :
    List Article × FetchResult :=
  let acc := fetchLoop parse sources
  (acc.1,
   { total_articles := acc.1.length
     successful_sources := acc.2
     failed_sources := sources.length - acc.2 })

/-- Whether the feed-parsing collaborator succeeds on a source. -/
def parseOk (parse : String → Except String (List FeedEntry)) (src : String) : Bool :=
  match parse src with
  | .ok _ => true
  | .error _ => false

/-! ## Content extraction (`extract_article_content`)

The page download and HTML text extraction are external; the repository's own
computation on the extracted text is `re.sub(r'\s+', ' ', content).strip()`,
then `article['content'] = content[:N]` (N = 2000 desktop, 1500 mobile) and
`article['word_count'] = len(content.split())`.
-/

/-- Python's `\s` whitespace class (the characters relevant to `str.split`). -/
def pyIsSpace (c : Char) : Bool :=
  c == ' ' || c == '\t' || c == '\n' || c == '\r' || c == '\x0b' || c == '\x0c'

/-- Models `re.sub(r"\s+", " ", s)`: each maximal whitespace run becomes one space. -/
def collapseWs : List Char → List Char
  | [] => []
  | [c] => if pyIsSpace c then [' '] else [c]
  | c1 :: c2 :: rest =>
    if pyIsSpace c1 && pyIsSpace c2 then collapseWs (c2 :: rest)
    else (if pyIsSpace c1 then ' ' else c1) :: collapseWs (c2 :: rest)

/-- Python `s.strip()`: drop leading and trailing whitespace. -/
def pyStrip (l : List Char) : List Char :=
  ((l.dropWhile pyIsSpace).reverse.dropWhile pyIsSpace).reverse

/-- Accumulator form of Python `s.split()` (whitespace words, empties
dropped). -/
def pyWordsAux : List Char → List Char → List (List Char)
  | [], acc => if acc.isEmpty then [] else [acc.reverse]
  | c :: rest, acc =>
    if pyIsSpace c then
      if acc.isEmpty then pyWordsAux rest [] else acc.reverse :: pyWordsAux rest []
    else pyWordsAux rest (c :: acc)

/-- Python `s.split()`: the whitespace-separated words of `l`. -/
def pyWords (l : List Char) : List (List Char) :=
  pyWordsAux l []

/-- The cleaned extraction text: `re.sub(r"\s+", " ", s).strip()`. -/
def pyClean (s : String) : List Char :=
  pyStrip (collapseWs s.toList)

/-- The per-article assignment of `extract_article_content` once the page text
is in hand (`agent.py` lines 182-184, `mobile_agent.py` lines 142-144): store
the cleaned text truncated to `bound` characters and the word count of the
full cleaned text.  `bound` is 2000 in the desktop variant, 1500 in mobile. -/
def extract_set_content (bound : Nat) (page_text : String) (a : Article) : Article :=
  let content := pyClean page_text
  { a with
    content := String.mk (content.take bound)
    word_count := (pyWords content).length }

/-- A feed entry with every field absent. -/
def blankEntry : FeedEntry :=
  { title := none, link := none, published := none, summary := none }

/-- A freshly initialised article with no feed data. -/
def blankArticle : Article :=
  article_of_entry "" blankEntry

/-- A page text longer than the desktop truncation bound: 2000 letters, a
space, then one more letter. -/
def longPage : String :=
  String.mk (List.replicate 2000 'a' ++ [' ', 'b'])

/-! ## Quality analysis (`analyze_content_quality`)

The readability computation is the external `textstat` library, modelled as a
fallible function `readability : String → Except String Int`.  The desktop
variant (`agent.py` lines 201-217) calls it with no exception handler; the
mobile variant (`mobile_agent.py` lines 158-172) wraps it in `try/except`
with default value 50.
-/

/-- The fixed-weight quality heuristic (identical in both variants). -/
def quality_of (a : Article) : Int :=
  (if a.word_count > 100 then 20 else 0) +
  (if a.word_count > 300 then 20 else 0) +
  (if a.title.length > 10 then 10 else 0) +
  (if a.summary ≠ "" then 10 else 0)

/-- One article of the desktop `analyze_content_quality` loop: readability
first (uncaught), then the quality score; empty-content articles untouched. -/
def analyze_article (readability : String → Except String Int) (a : Article) :
    Except String Article :=
  if a.content ≠ "" then
    match readability a.content with
    | .error e => .error e
    | .ok r => .ok { a with readability_score := r, quality_score := some (quality_of a) }
  else .ok a

/-- The desktop `analyze_content_quality` loop over the store: the first
uncaught readability failure propagates out of the step. -/
def analyze_content_quality (readability : String → Except String Int) :
    List Article → Except String (List Article)
  | [] => .ok []
  | a :: rest =>
    match analyze_article readability a with
    | .error e => .error e
    | .ok a2 =>
      match analyze_content_quality readability rest with
      | .error e => .error e
      | .ok rest2 => .ok (a2 :: rest2)

/-- One article of the mobile `analyze_content_quality` loop: a readability
failure is caught and replaced by the default value 50. -/
def analyze_article_mobile (readability : String → Except String Int) (a : Article) :
    Article :=
  if a.content ≠ "" then
    let r := match readability a.content with
      | .ok r => r
      | .error _ => 50
    { a with readability_score := r, quality_score := some (quality_of a) }
  else a

/-- The mobile `analyze_content_quality` loop over the store: total, never
fails. -/
def analyze_content_quality_mobile (readability : String → Except String Int)
    (arts : List Article) : List Article :=
  arts.map (analyze_article_mobile readability)

/-- An article whose extracted content is non-empty. -/
def sampleContentArticle : Article :=
  { blankArticle with
    title := "A sample headline"
    summary := "feed summary"
    content := "Sample body text."
    word_count := 3 }

/-! ## Ranking (`rank_by_relevance`)

The random recency jitter (`random.randint(0, 10)`, one draw per article in
store order) is modelled as a function `jitter : Nat → Int` from the article's
position; theorems assume its range only where the claim does.  Python's
`list.sort(key=..., reverse=True)` is a stable descending sort, embedded as a
stable insertion sort. -/

/-- The urgency keywords of `rank_by_relevance`. -/
def title_keywords : List String :=
  ["breaking", "urgent", "major", "significant", "important"]

/-- The deterministic part of the relevance score: urgency bonus, quality
score (0 when absent), readability bonus. -/
def base_score (a : Article) : Int :=
  (if hasAnyKeyword a.title title_keywords then 20 else 0) +
  a.quality_score.getD 0 +
  (if a.readability_score > 60 then 10 else 0)

/-- Scoring one article with its jitter draw. -/
def score_article (jit : Int) (a : Article) : Article :=
  { a with relevance_score := base_score a + jit }

/-- The scoring pass over the store, drawing jitter per position. -/
def score_all (jitter : Nat → Int) : Nat → List Article → List Article
  | _, [] => []
  | i, a :: rest => score_article (jitter i) a :: score_all jitter (i + 1) rest

/-- Stable descending insertion: `a` goes in front of the first element whose
relevance score is at most `a`'s (so in front of later-arriving equals). -/
def insertDesc (a : Article) : List Article → List Article
  | [] => [a]
  | b :: rest =>
    if b.relevance_score ≤ a.relevance_score then a :: b :: rest
    else b :: insertDesc a rest

/-- Stable descending sort by relevance score, modelling Python's stable
`list.sort(key=lambda x: x["relevance_score"], reverse=True)`. -/
def sortDesc : List Article → List Article
  | [] => []
  | a :: rest => insertDesc a (sortDesc rest)

/-- Embeds `rank_by_relevance`: score every article, then stable-sort descending. -/
def rank_by_relevance (jitter : Nat → Int) (arts : List Article) : List Article :=
  sortDesc (score_all jitter 0 arts)

/-- Descending order on relevance scores. -/
def scoreGE (x y : Article) : Prop :=
  y.relevance_score ≤ x.relevance_score

/-! ## Executor

`NewsAgent.execute_plan` (lines 79-109) dispatches on the step name over the
seven fixed method names; a step that raises is caught, recorded as the string
`"Error: <message>"` under its step name, and the loop continues.  The step
methods themselves touch the network and the shared store, so they are
modelled as an abstract state type `σ`, result-record type `ρ`, and one
possibly-failing function per catalogue name. -/

/-- Outcome of invoking one step method: a result record and the state it
leaves behind, or a raised failure message and the state at the raise. -/
inductive StepResult (σ ρ : Type) where
  | ok : ρ → σ → StepResult σ ρ
  | failure : String → σ → StepResult σ ρ
deriving DecidableEq

/-- The seven step methods of an agent, one per catalogue name. -/
structure AgentOps (σ ρ : Type) where
  fetch_news_feeds : σ → StepResult σ ρ
  extract_article_content : σ → StepResult σ ρ
  analyze_content_quality : σ → StepResult σ ρ
  summarize_articles : σ → StepResult σ ρ
  rank_by_relevance : σ → StepResult σ ρ
  generate_summary_report : σ → StepResult σ ρ
  filter_tech_content : σ → StepResult σ ρ

/-- Models the `if step == ... elif ...` dispatch chain of `execute_plan`; a name
outside the catalogue has no handler. -/
def dispatchOf {σ ρ : Type} (ops : AgentOps σ ρ) (step : String) :
    Option (σ → StepResult σ ρ) :=
  if step = "fetch_news_feeds" then some ops.fetch_news_feeds
  else if step = "extract_article_content" then some ops.extract_article_content
  else if step = "analyze_content_quality" then some ops.analyze_content_quality
  else if step = "summarize_articles" then some ops.summarize_articles
  else if step = "rank_by_relevance" then some ops.rank_by_relevance
  else if step = "generate_summary_report" then some ops.generate_summary_report
  else if step = "filter_tech_content" then some ops.filter_tech_content
  else none

/-- One value of the results mapping: a step's result record, or the failure
marker string recorded when the step raised. -/
inductive StepEntry (ρ : Type) where
  | ok : ρ → StepEntry ρ
  | failure : String → StepEntry ρ
deriving DecidableEq

/-- Embeds `NewsAgent.execute_plan`: run the steps in order against the state,
catching each step's failure as an `"Error: ..."` marker under its name and
continuing; a name with no handler contributes no entry.  The results mapping
is the association list in execution order (plans carry no duplicate names). -/
def execute_plan {σ ρ : Type} (ops : AgentOps σ ρ) :
    List String → σ → List (String × StepEntry ρ) × σ
  | [], s => ([], s)
  | step :: rest, s =>
    match dispatchOf ops step with
    | none => execute_plan ops rest s
    | some f =>
      match f s with
      | .ok r s2 =>
        let acc := execute_plan ops rest s2
        ((step, .ok r) :: acc.1, acc.2)
      | .failure msg s2 =>
        let acc := execute_plan ops rest s2
        ((step, .failure ("Error: " ++ msg)) :: acc.1, acc.2)

lemma execute_plan_append {σ ρ : Type} (ops : AgentOps σ ρ)
    (l1 l2 : List String) (s : σ) :
    execute_plan ops (l1 ++ l2) s =
      ((execute_plan ops l1 s).1 ++
        (execute_plan ops l2 (execute_plan ops l1 s).2).1,
       (execute_plan ops l2 (execute_plan ops l1 s).2).2) := by
  induction l1 generalizing s with
  | nil => simp [execute_plan]
  | cons step rest ih =>
    cases hd : dispatchOf ops step with
    | none => simp [execute_plan, hd, ih s]
    | some f =>
      cases hfs : f s with
      | ok r s2 => simp [execute_plan, hd, hfs, ih s2]
      | failure msg s2 => simp [execute_plan, hd, hfs, ih s2]

/-- Embeds `MobileNewsAgent.run_async` (lines 281-304): before each loop iteration
the externally set `is_running` flag is checked and, once cleared, the loop
breaks with the results gathered so far.  `running i` is the flag's value at
the check preceding the `i`-th iteration.  The mobile loop has no per-step
handler, so a raising step aborts the run (the outer `except` path, which
discards the results mapping). -/
def run_async_loop {σ ρ : Type} (ops : AgentOps σ ρ) (running : Nat → Bool) :
    List String → Nat → σ → Except String (List (String × ρ) × σ)
  | [], _, s => .ok ([], s)
  | step :: rest, i, s =>
    if running i then
      match dispatchOf ops step with
      | none => run_async_loop ops running rest (i + 1) s
      | some f =>
        match f s with
        | .ok r s2 =>
          match run_async_loop ops running rest (i + 1) s2 with
          | .ok acc => .ok ((step, r) :: acc.1, acc.2)
          | .error e => .error e
        | .failure msg _ => .error msg
    else .ok ([], s)

/-- A demonstration step method that raises nothing. -/
def stepOk : Nat → StepResult Nat Nat :=
  fun s => .ok s (s + 1)

/-- Demonstration agent whose every step succeeds. -/
def opsAllOk : AgentOps Nat Nat :=
  { fetch_news_feeds := stepOk
    extract_article_content := stepOk
    analyze_content_quality := stepOk
    summarize_articles := stepOk
    rank_by_relevance := stepOk
    generate_summary_report := stepOk
    filter_tech_content := stepOk }

/-- Demonstration agent whose extraction step raises `"boom"`. -/
def opsExtractFails : AgentOps Nat Nat :=
  { opsAllOk with
    extract_article_content := fun s => .failure "boom" s }

/-- A four-step plan prefix of the canonical sequence. -/
def plan4 : List String :=
  ["fetch_news_feeds", "extract_article_content",
   "analyze_content_quality", "summarize_articles"]

/-- A five-step plan prefix of the canonical sequence. -/
def plan5 : List String :=
  ["fetch_news_feeds", "extract_article_content", "analyze_content_quality",
   "summarize_articles", "rank_by_relevance"]

lemma insertDesc_perm (a : Article) (l : List Article) :
    (insertDesc a l).Perm (a :: l) := by
  induction l with
  | nil => rfl
  | cons b rest ih =>
    unfold insertDesc
    split
    · rfl
    · exact ((ih.cons b).trans (List.Perm.swap a b rest)).symm.symm

lemma sortDesc_perm (l : List Article) : (sortDesc l).Perm l := by
  induction l with
  | nil => rfl
  | cons a rest ih =>
    exact (insertDesc_perm a (sortDesc rest)).trans (ih.cons a)

lemma mem_insertDesc {x a : Article} {l : List Article} :
    x ∈ insertDesc a l ↔ x = a ∨ x ∈ l := by
  rw [(insertDesc_perm a l).mem_iff, List.mem_cons]

lemma insertDesc_sorted (a : Article) {l : List Article}
    (h : List.Pairwise scoreGE l) : List.Pairwise scoreGE (insertDesc a l) := by
  induction l with
  | nil => simp [insertDesc, List.pairwise_singleton]
  | cons b rest ih =>
    rcases List.pairwise_cons.mp h with ⟨hb, hrest⟩
    unfold insertDesc
    split
    · rename_i hba
      refine List.pairwise_cons.mpr ⟨?_, h⟩
      intro y hy
      rcases List.mem_cons.mp hy with rfl | hy2
      · exact hba
      · exact le_trans (hb y hy2) hba
    · rename_i hba
      refine List.pairwise_cons.mpr ⟨?_, ih hrest⟩
      intro y hy
      rcases mem_insertDesc.mp hy with rfl | hy2
      · exact le_of_not_le hba
      · exact hb y hy2

lemma sortDesc_sorted (l : List Article) : List.Pairwise scoreGE (sortDesc l) := by
  induction l with
  | nil => exact List.Pairwise.nil
  | cons a rest ih => exact insertDesc_sorted a ih

lemma insertDesc_filter (k : Int) (a : Article) (l : List Article) :
    (insertDesc a l).filter (fun x => x.relevance_score == k) =
      if a.relevance_score == k then
        a :: l.filter (fun x => x.relevance_score == k)
      else l.filter (fun x => x.relevance_score == k) := by
  induction l with
  | nil => simp [insertDesc, List.filter_singleton]
  | cons b rest ih =>
    unfold insertDesc
    split
    · simp [List.filter_cons]
    · rename_i hba
      by_cases hbk : b.relevance_score == k
      · by_cases hak : a.relevance_score == k
        · exfalso
          exact hba (le_of_eq ((beq_iff_eq.mp hbk).trans (beq_iff_eq.mp hak).symm))
        · simp [List.filter_cons, hbk, hak, ih]
      · simp [List.filter_cons, hbk, ih]

lemma sortDesc_filter (k : Int) (l : List Article) :
    (sortDesc l).filter (fun x => x.relevance_score == k) =
      l.filter (fun x => x.relevance_score == k) := by
  induction l with
  | nil => rfl
  | cons a rest ih =>
    show (insertDesc a (sortDesc rest)).filter _ = _
    rw [insertDesc_filter, ih, List.filter_cons]

lemma mem_score_all {a : Article} {jitter : Nat → Int} :
    ∀ {n : Nat} {l : List Article}, a ∈ score_all jitter n l →
      ∃ i b, b ∈ l ∧ a = score_article (jitter i) b := by
  intro n l
  induction l generalizing n with
  | nil => intro h; simp [score_all] at h
  | cons b rest ih =>
    intro h
    rcases List.mem_cons.mp h with rfl | h2
    · exact ⟨n, b, List.mem_cons_self b rest, rfl⟩
    · obtain ⟨i, c, hc, hac⟩ := ih h2
      exact ⟨i, c, List.mem_cons_of_mem b hc, hac⟩

end NewsScraper

namespace NewsScraper

/-- C1: a news query yields the six canonical steps, with the tech filter
appended iff a tech keyword is also present; a query matching neither keyword
set yields the three-step fallback plan. -/
theorem plan_task_c1 (q : String) :
    (hasAnyKeyword q news_keywords = true →
      plan_task q = canonical_steps ++
        (if hasAnyKeyword q tech_keywords then ["filter_tech_content"] else [])) ∧
    (hasAnyKeyword q news_keywords = false → hasAnyKeyword q tech_keywords = false →
      plan_task q = fallback_steps) := by
  constructor
  · intro hn
    by_cases ht : hasAnyKeyword q tech_keywords = true
    · simp [plan_task, hn, ht, canonical_steps]
    · simp only [Bool.not_eq_true] at ht
      simp [plan_task, hn, ht, canonical_steps]
  · intro hn ht
    simp [plan_task, hn, ht, fallback_steps]

/-- Witness for C1: concrete queries exercising both branches. -/
theorem plan_task_c1_witness :
    plan_task "latest ai news" = canonical_steps ++ ["filter_tech_content"] ∧
    plan_task "hello world" = fallback_steps := by
  constructor
  · have h := (plan_task_c1 "latest ai news").1 (by decide)
    simpa [show hasAnyKeyword "latest ai news" tech_keywords = true by decide] using h
  · exact (plan_task_c1 "hello world").2 (by decide) (by decide)

/-- C10: a query with a tech keyword but no news keyword yields the single-step
plan `["filter_tech_content"]`, which in particular contains no fetch step. -/
theorem plan_task_c10 (q : String)
    (hn : hasAnyKeyword q news_keywords = false)
    (ht : hasAnyKeyword q tech_keywords = true) :
    plan_task q = ["filter_tech_content"] ∧ "fetch_news_feeds" ∉ plan_task q := by
  have hp : plan_task q = ["filter_tech_content"] := by
    simp [plan_task, hn, ht]
  refine ⟨hp, ?_⟩
  rw [hp]
  simp

/-- Witness for C10: the query "ai" matches only the tech keyword set. -/
theorem plan_task_c10_witness :
    plan_task "ai" = ["filter_tech_content"] ∧ "fetch_news_feeds" ∉ plan_task "ai" :=
  plan_task_c10 "ai" (by decide) (by decide)

/-- C9, counterexample: a source whose feed parses successfully but contains
zero entries stores no articles, yet is counted in `successful_sources`; so
`successful_sources` is not the count of sources that yielded at least one
entry. -/
theorem fetch_c9_counterexample :
    (fetch_news_feeds ["http://feeds.example.com/empty.rss"] (fun _ => .ok [])).2.successful_sources ≠
      (["http://feeds.example.com/empty.rss"].countP
        (fun u =>
          (fetch_news_feeds ["http://feeds.example.com/empty.rss"] (fun _ => .ok [])).1.any
            (fun a => a.source == u))) := by
  decide

/-- C9 as amended: at most five entries are stored per source (so the store
holds at most `5 * |sources|` articles and `total_articles` reports its size),
a failing source contributes nothing without disturbing the other sources
(the store is exactly the concatenation of each source's own contribution),
`successful_sources` counts the sources whose parse did not fail (even when
they yielded zero entries), and `failed_sources` is the number of sources
minus `successful_sources`. -/
theorem fetch_news_feeds_c9 (sources : List String)
    (parse : String → Except String (List FeedEntry)) :
    (fetch_news_feeds sources parse).1 =
      sources.flatMap (fun u =>
        match parse u with
        | .ok entries => (entries.take 5).map (article_of_entry u)
        | .error _ => []) ∧
    (fetch_news_feeds sources parse).1.length ≤ 5 * sources.length ∧
    (fetch_news_feeds sources parse).2.total_articles =
      (fetch_news_feeds sources parse).1.length ∧
    (fetch_news_feeds sources parse).2.successful_sources =
      sources.countP (parseOk parse) ∧
    (fetch_news_feeds sources parse).2.failed_sources =
      sources.length - sources.countP (parseOk parse) := by
  have key : ∀ srcs : List String,
      (fetchLoop parse srcs).1 =
        srcs.flatMap (fun u =>
          match parse u with
          | .ok entries => (entries.take 5).map (article_of_entry u)
          | .error _ => []) ∧
      (fetchLoop parse srcs).1.length ≤ 5 * srcs.length ∧
      (fetchLoop parse srcs).2 = srcs.countP (parseOk parse) := by
    intro srcs
    induction srcs with
    | nil => simp [fetchLoop]
    | cons src rest ih =>
      obtain ⟨ih1, ih2, ih3⟩ := ih
      refine ⟨?_, ?_, ?_⟩
      · simp only [fetchLoop, List.flatMap_cons]
        rw [ih1]
        cases h : parse src <;> simp [h]
      · simp only [fetchLoop, List.length_append, List.length_cons]
        have hhere :
            (match parse src with
              | .ok entries => ((entries.take 5).map (article_of_entry src), 1)
              | .error _ => (([] : List Article), 0) : List Article × Nat).1.length ≤ 5 := by
          cases h : parse src with
          | ok entries =>
            simpa using List.length_take_le 5 entries
          | error e => simp
        calc _ ≤ 5 + (fetchLoop parse rest).1.length := by omega
          _ ≤ 5 + 5 * rest.length := by omega
          _ = 5 * (rest.length + 1) := by ring
      · simp only [fetchLoop, List.countP_cons]
        rw [ih3]
        cases h : parse src <;> simp [parseOk, h] <;> omega
  obtain ⟨k1, k2, k3⟩ := key sources
  exact ⟨k1, k2, rfl, k3, by simp [fetch_news_feeds, k3]⟩

set_option maxRecDepth 100000

/-- C8, counterexample: on a cleaned page text of 2000 letters, a space and
one more letter, the desktop extraction stores a 2000-character `content`
holding a single word but records `word_count = 2` (computed from the full
pre-truncation text), so `word_count` disagrees with the word count of the
stored `content`. -/
theorem extract_c8_counterexample :
    (extract_set_content 2000 longPage blankArticle).word_count ≠
      (pyWords (extract_set_content 2000 longPage blankArticle).content.toList).length := by
  decide

/-- C8 as amended: `word_count` is the word count of the full cleaned page
text (set together with `content`), and it agrees with the word count of the
stored `content` field whenever the cleaned text fits within the truncation
bound (2000 characters desktop, 1500 mobile) — but not in general beyond it. -/
theorem extract_c8_amended (bound : Nat) (t : String) (a : Article) :
    (extract_set_content bound t a).word_count = (pyWords (pyClean t)).length ∧
    ((pyClean t).length ≤ bound →
      (extract_set_content bound t a).content.toList = pyClean t ∧
      (extract_set_content bound t a).word_count =
        (pyWords (extract_set_content bound t a).content.toList).length) := by
  refine ⟨rfl, fun h => ?_⟩
  have hc : (extract_set_content bound t a).content.toList = pyClean t := by
    simp [extract_set_content, String.toList, List.take_of_length_le h]
  refine ⟨hc, ?_⟩
  rw [hc]
  rfl

/-- Witness for C8 (amended): a short page text, where the stored content is
the whole cleaned text and the two fields agree. -/
theorem extract_c8_witness :
    (extract_set_content 2000 " hello   world " blankArticle).content.toList =
      pyClean " hello   world " ∧
    (extract_set_content 2000 " hello   world " blankArticle).word_count =
      (pyWords (extract_set_content 2000 " hello   world " blankArticle).content.toList).length :=
  (extract_c8_amended 2000 " hello   world " blankArticle).2 (by decide)

/-- C6: in both variants, every article with non-empty content gets
`quality_score` set to exactly the four-bonus sum `quality_of`, whose value
always lies in {0,10,20,30,40,50,60}; articles with empty content pass
through unchanged, so no quality score is computed for them. -/
theorem analyze_c6 (readability : String → Except String Int) (arts : List Article) :
    analyze_content_quality_mobile readability arts =
      arts.map (analyze_article_mobile readability) ∧
    ∀ a ∈ arts,
      (a.content ≠ "" →
        (analyze_article_mobile readability a).quality_score = some (quality_of a) ∧
        (∀ a2, analyze_article readability a = .ok a2 →
          a2.quality_score = some (quality_of a)) ∧
        quality_of a ∈ ([0, 10, 20, 30, 40, 50, 60] : List Int)) ∧
      (a.content = "" →
        analyze_article_mobile readability a = a ∧
        analyze_article readability a = .ok a) := by
  refine ⟨rfl, fun a _ => ⟨fun hc => ⟨?_, ?_, ?_⟩, fun hc => ⟨?_, ?_⟩⟩⟩
  · simp [analyze_article_mobile, hc]
  · intro a2 h2
    simp only [analyze_article, if_pos hc] at h2
    cases hr : readability a.content with
    | ok r => rw [hr] at h2; simp at h2; subst h2; rfl
    | error e => rw [hr] at h2; simp at h2
  · unfold quality_of
    rcases Nat.lt_or_ge 100 a.word_count with h1 | h1 <;>
      rcases Nat.lt_or_ge 300 a.word_count with h2 | h2 <;>
        rcases Nat.lt_or_ge 10 a.title.length with h3 | h3 <;>
          by_cases h4 : a.summary ≠ "" <;>
            simp [h1, h2, h3, h4, Nat.not_lt.mpr, Nat.lt_irrefl] <;> omega
  · simp [analyze_article_mobile, hc]
  · simp [analyze_article, hc]

/-- Witness for C6: a concrete article with non-empty content and one with
empty content, under a concrete readability collaborator. -/
theorem analyze_c6_witness :
    (analyze_article_mobile (fun _ => .ok 70) sampleContentArticle).quality_score =
      some (quality_of sampleContentArticle) ∧
    quality_of sampleContentArticle ∈ ([0, 10, 20, 30, 40, 50, 60] : List Int) ∧
    analyze_article_mobile (fun _ => .ok 70) blankArticle = blankArticle := by
  have h := (analyze_c6 (fun _ => .ok 70) [sampleContentArticle, blankArticle]).2
  have h1 := (h sampleContentArticle (by simp)).1 (by decide)
  have h2 := (h blankArticle (by simp)).2 (by decide)
  exact ⟨h1.1, h1.2.2, h2.1⟩

/-- C7, counterexample: in the desktop variant the readability call has no
exception handler, so a readability failure on an article with non-empty
content propagates out of `analyze_content_quality` (no default value is
substituted and the remaining articles are not processed), contrary to the
claim. -/
theorem analyze_c7_counterexample :
    analyze_content_quality (fun _ => .error "textstat failure")
      [sampleContentArticle, sampleContentArticle] = .error "textstat failure" := by
  rfl

/-- C7 as amended: in the mobile variant a readability failure is caught and
the neutral default value 50 substituted, the quality score is still
computed, and the step still processes every article of the store; in the
desktop variant the failure propagates out of the step (where the executor
records it as a step failure). -/
theorem analyze_c7_amended (readability : String → Except String Int)
    (arts : List Article) (a : Article) (e : String)
    (hc : a.content ≠ "") (he : readability a.content = .error e) :
    (analyze_article_mobile readability a).readability_score = 50 ∧
    (analyze_article_mobile readability a).quality_score = some (quality_of a) ∧
    analyze_content_quality_mobile readability arts =
      arts.map (analyze_article_mobile readability) ∧
    (a ∈ arts → analyze_content_quality readability arts = .error e ∨
      ∃ e2, analyze_content_quality readability arts = .error e2) := by
  refine ⟨?_, ?_, rfl, ?_⟩
  · simp [analyze_article_mobile, hc, he]
  · simp [analyze_article_mobile, hc, he]
  · intro ha
    right
    induction arts with
    | nil => simp at ha
    | cons b rest ih =>
      rcases List.mem_cons.mp ha with hb | hb
      · subst hb
        refine ⟨e, ?_⟩
        simp [analyze_content_quality, analyze_article, hc, he]
      · obtain ⟨e2, h2⟩ := ih hb
        cases hb2 : analyze_article readability b with
        | error e3 => exact ⟨e3, by simp [analyze_content_quality, hb2]⟩
        | ok b2 => exact ⟨e2, by simp [analyze_content_quality, hb2, h2]⟩

/-- Witness for C7 (amended): a concrete failing readability collaborator on
a concrete article. -/
theorem analyze_c7_witness :
    (analyze_article_mobile (fun _ => .error "boom") sampleContentArticle).readability_score = 50 ∧
    (analyze_article_mobile (fun _ => .error "boom") sampleContentArticle).quality_score =
      some (quality_of sampleContentArticle) := by
  have h := analyze_c7_amended (fun _ => .error "boom") [sampleContentArticle]
    sampleContentArticle "boom" (by decide) rfl
  exact ⟨h.1, h.2.1⟩

/-- C4: after `rank_by_relevance`, the store is sorted in descending order of
`relevance_score`, it is a permutation of the scored store, and for every
score value the articles carrying it appear in their pre-sort relative order
(stable sort): together, the post-rank store is exactly the stable descending
sort of the scored pre-sort store. -/
theorem rank_c4 (jitter : Nat → Int) (arts : List Article) :
    List.Pairwise scoreGE (rank_by_relevance jitter arts) ∧
    (rank_by_relevance jitter arts).Perm (score_all jitter 0 arts) ∧
    ∀ k : Int,
      (rank_by_relevance jitter arts).filter (fun x => x.relevance_score == k) =
        (score_all jitter 0 arts).filter (fun x => x.relevance_score == k) :=
  ⟨sortDesc_sorted _, sortDesc_perm _, fun k => sortDesc_filter k _⟩

/-- C5: the scoring pass sets each article's `relevance_score` to its
deterministic component `base_score` (urgency bonus + quality score with
default 0 + readability bonus) plus that article's jitter draw; whenever every
jitter draw lies in [0, 10], every article in the ranked store has
`relevance_score - base_score` in [0, 10]. -/
theorem rank_c5 (jitter : Nat → Int) (arts : List Article)
    (hj : ∀ i, 0 ≤ jitter i ∧ jitter i ≤ 10) :
    (∀ i : Nat, (score_all jitter 0 arts)[i]? =
      (arts[i]?).map (fun a => score_article (jitter i) a)) ∧
    (∀ a, a ∈ score_all jitter 0 arts → ∃ i b, b ∈ arts ∧
      a = score_article (jitter i) b ∧ a.relevance_score = base_score b + jitter i) ∧
    (∀ a, a ∈ rank_by_relevance jitter arts →
      0 ≤ a.relevance_score - base_score a ∧ a.relevance_score - base_score a ≤ 10) := by
  have hbase : ∀ (j : Int) (b : Article), base_score (score_article j b) = base_score b := by
    intro j b
    rfl
  refine ⟨?_, ?_, ?_⟩
  · have key : ∀ (l : List Article) (n i : Nat),
        (score_all jitter n l)[i]? = (l[i]?).map (fun a => score_article (jitter (n + i)) a) := by
      intro l
      induction l with
      | nil => intro n i; simp [score_all]
      | cons a rest ih =>
        intro n i
        cases i with
        | zero => simp [score_all]
        | succ m =>
          simp only [score_all, List.getElem?_cons_succ]
          rw [ih (n + 1) m]
          have : n + 1 + m = n + (m + 1) := by omega
          rw [this]
    intro i
    simpa using key arts 0 i
  · intro a ha
    obtain ⟨i, b, hb, hab⟩ := mem_score_all ha
    exact ⟨i, b, hb, hab, by rw [hab]; rfl⟩
  · intro a ha
    have ha2 : a ∈ score_all jitter 0 arts := (sortDesc_perm _).mem_iff.mp ha
    obtain ⟨i, b, _, hab⟩ := mem_score_all ha2
    have hscore : a.relevance_score = base_score b + jitter i := by rw [hab]; rfl
    have hb2 : base_score a = base_score b := by rw [hab]; exact hbase _ _
    rcases hj i with ⟨hj0, hj10⟩
    constructor
    · rw [hscore, hb2]; omega
    · rw [hscore, hb2]; omega

/-- Witness for C5: a constant jitter of 7 on a one-article store. -/
theorem rank_c5_witness :
    (score_all (fun _ => 7) 0 [sampleContentArticle])[0]? =
      some (score_article 7 sampleContentArticle) ∧
    0 ≤ (score_article 7 sampleContentArticle).relevance_score -
        base_score (score_article 7 sampleContentArticle) ∧
    (score_article 7 sampleContentArticle).relevance_score -
        base_score (score_article 7 sampleContentArticle) ≤ 10 := by
  have h := rank_c5 (fun _ => 7) [sampleContentArticle]
    (by intro i; norm_num)
  refine ⟨by simpa using h.1 0, ?_⟩
  exact h.2.2 (score_article 7 sampleContentArticle) (by decide)

/-- C2: when every step of the plan has a handler, the executor records
exactly one entry per step, in plan order (so steps after a failure are still
executed); and when a step raises, its entry is the failure marker
`"Error: <message>"` under that step's name while the remaining steps run
exactly as they would from the state the failing step left behind. -/
theorem execute_plan_c2 {σ ρ : Type} (ops : AgentOps σ ρ) :
    (∀ (plan : List String) (s : σ),
      (∀ st ∈ plan, (dispatchOf ops st).isSome = true) →
      (execute_plan ops plan s).1.map Prod.fst = plan) ∧
    (∀ (pre post : List String) (st : String) (s : σ)
      (f : σ → StepResult σ ρ) (msg : String) (s2 : σ),
      dispatchOf ops st = some f →
      f (execute_plan ops pre s).2 = .failure msg s2 →
      (execute_plan ops (pre ++ st :: post) s).1 =
        (execute_plan ops pre s).1 ++
          (st, StepEntry.failure ("Error: " ++ msg)) ::
            (execute_plan ops post s2).1) := by
  constructor
  · intro plan
    induction plan with
    | nil => intro s _; rfl
    | cons step rest ih =>
      intro s hknown
      have hstep := hknown step (List.mem_cons_self step rest)
      have hrest : ∀ st ∈ rest, (dispatchOf ops st).isSome = true :=
        fun st hst => hknown st (List.mem_cons_of_mem step hst)
      cases hd : dispatchOf ops step with
      | none => rw [hd] at hstep; simp at hstep
      | some f =>
        cases hf : f s with
        | ok r s2 => simp [execute_plan, hd, hf, ih s2 hrest]
        | failure msg s2 => simp [execute_plan, hd, hf, ih s2 hrest]
  · intro pre post st s f msg s2 hd hf
    rw [execute_plan_append]
    simp only [execute_plan, hd, hf]

/-- Witness for C2: a four-step plan whose second step raises `"boom"`; the
results still cover all four steps, with the failure marker under step 2. -/
theorem execute_plan_c2_witness :
    (execute_plan opsExtractFails plan4 0).1.map Prod.fst = plan4 ∧
    (execute_plan opsExtractFails plan4 0).1 =
      (execute_plan opsExtractFails ["fetch_news_feeds"] 0).1 ++
        ("extract_article_content", StepEntry.failure "Error: boom") ::
          (execute_plan opsExtractFails
            ["analyze_content_quality", "summarize_articles"] 1).1 := by
  constructor
  · exact (execute_plan_c2 opsExtractFails).1 plan4 0 (by decide)
  · exact (execute_plan_c2 opsExtractFails).2 ["fetch_news_feeds"]
      ["analyze_content_quality", "summarize_articles"]
      "extract_article_content" 0 (fun s => .failure "boom" s) "boom" 1 rfl rfl

/-- C3: the mobile executor checks the cancellation flag before each step;
with the flag set from the `k`-th check on (and every step succeeding), the
run returns entries for exactly the first `k` plan steps, in order, and no
entry for any later step. -/
theorem run_async_c3 {σ ρ : Type} (ops : AgentOps σ ρ) (running : Nat → Bool)
    (k : Nat) (plan : List String) (s : σ)
    (hflag : ∀ j, running j = decide (j < k))
    (hknown : ∀ st ∈ plan, (dispatchOf ops st).isSome = true)
    (hsucc : ∀ (st : String) (f : σ → StepResult σ ρ) (s1 : σ),
      dispatchOf ops st = some f → ∃ r s2, f s1 = .ok r s2) :
    ∃ acc, run_async_loop ops running plan 0 s = .ok acc ∧
      acc.1.map Prod.fst = plan.take k := by
  have key : ∀ (pl : List String) (i : Nat) (s1 : σ),
      (∀ st ∈ pl, (dispatchOf ops st).isSome = true) →
      ∃ acc, run_async_loop ops running pl i s1 = .ok acc ∧
        acc.1.map Prod.fst = pl.take (k - i) := by
    intro pl
    induction pl with
    | nil => intro i s1 _; exact ⟨([], s1), rfl, by simp⟩
    | cons step rest ih =>
      intro i s1 hkn
      have hstep := hkn step (List.mem_cons_self step rest)
      have hrest : ∀ st ∈ rest, (dispatchOf ops st).isSome = true :=
        fun st hst => hkn st (List.mem_cons_of_mem step hst)
      by_cases hik : i < k
      · have hrun : running i = true := by rw [hflag i]; simpa using hik
        cases hd : dispatchOf ops step with
        | none => rw [hd] at hstep; simp at hstep
        | some f =>
          obtain ⟨r, s2, hf⟩ := hsucc step f s1 hd
          obtain ⟨acc, hacc, hmap⟩ := ih (i + 1) s2 hrest
          refine ⟨((step, r) :: acc.1, acc.2), ?_, ?_⟩
          · simp [run_async_loop, hrun, hd, hf, hacc]
          · have hk : k - i = (k - (i + 1)) + 1 := by omega
            simp [hmap, hk, List.take_succ_cons]
      · have hrun : running i = false := by rw [hflag i]; simpa using hik
        have hk : k - i = 0 := by omega
        exact ⟨([], s1), by simp [run_async_loop, hrun], by simp [hk]⟩
  simpa using key plan 0 s hknown

/-- Witness for C3: the flag is cleared after two steps of a five-step plan;
entries exist for the first two steps only. -/
theorem run_async_c3_witness :
    ∃ acc, run_async_loop opsAllOk (fun j => decide (j < 2)) plan5 0 0 = .ok acc ∧
      acc.1.map Prod.fst = plan5.take 2 := by
  refine run_async_c3 opsAllOk (fun j => decide (j < 2)) 2 plan5 0
    (fun j => rfl) (by decide) ?_
  intro st f s1 hd
  have hf : f = stepOk := by
    simp only [dispatchOf] at hd
    split_ifs at hd <;> first
      | exact (Option.some.inj hd).symm
      | simp at hd
  exact ⟨s1, s1 + 1, by rw [hf]; rfl⟩

end NewsScraper
